import Mathlib

/-!
Verification of the pattern model of the `wfc` repository (crates `wfc` and
`wfc-image`): overlapping-pattern extraction, the pairwise adjacency
compatibility test, global statistics, and image reconstruction.

The Rust sources embedded here are `wfc/src/overlapping.rs` and
`wfc-image/src/lib.rs`.  Helper types from the rest of the repository
(`TiledGridSlice`, `Orientation`) and from the external solver (`Wave`,
`WaveCellRef`) are modelled from the specification where their source is not
available; each such definition carries a doc comment saying so.
-/

namespace Wfc

/-- Coordinate of a grid cell.  The Rust `coord_2d::Coord` holds `i32`
components; every coordinate manipulated by the embedded code is
non-negative, so `Nat` components are used. -/
structure Coord where
  x : Nat
  y : Nat
deriving DecidableEq, Repr

instance : Add Coord := ⟨fun a b => ⟨a.x + b.x, a.y + b.y⟩⟩

@[simp] theorem Coord.add_def (a b : Coord) : a + b = ⟨a.x + b.x, a.y + b.y⟩ := rfl

/-- Rectangular extent, as in `coord_2d::Size` (`u32` components). -/
structure Size where
  x : Nat
  y : Nat
deriving DecidableEq, Repr

/-- Axis of a cardinal direction, as in the `direction` crate. -/
inductive Axis where
  | X
  | Y
deriving DecidableEq, Repr

/-- Cardinal direction, as in `direction::CardinalDirection`. -/
inductive CardinalDirection where
  | North
  | South
  | East
  | West
deriving DecidableEq, Repr

/-- Axis of each cardinal direction (`CardinalDirection::axis`):
North/South lie on the Y axis, East/West on the X axis. -/
def CardinalDirection.axis : CardinalDirection → Axis
  | .North => .Y
  | .South => .Y
  | .East => .X
  | .West => .X

/-- Apply a function to the component of a size along one axis
(`Size::with_axis`). -/
def Size.with_axis (s : Size) (a : Axis) (f : Nat → Nat) : Size :=
  match a with
  | .X => ⟨f s.x, s.y⟩
  | .Y => ⟨s.x, f s.y⟩

/-- Component of a size along an axis. -/
def Size.axisExtent (s : Size) (a : Axis) : Nat :=
  match a with
  | .X => s.x
  | .Y => s.y

/-- Row-major enumeration of the coordinates of a rectangle, as produced by
`grid_2d::CoordIter` (y outer, x inner). -/
def coordIter (s : Size) : List Coord :=
  (List.range s.y).flatMap (fun y => (List.range s.x).map (fun x => ⟨x, y⟩))

theorem mem_coordIter {s : Size} {c : Coord} :
    c ∈ coordIter s ↔ c.x < s.x ∧ c.y < s.y := by
  unfold coordIter
  simp only [List.mem_flatMap, List.mem_map, List.mem_range]
  constructor
  · rintro ⟨y, hy, x, hx, rfl⟩
    exact ⟨hx, hy⟩
  · rintro ⟨hx, hy⟩
    exact ⟨c.y, hy, c.x, hx, rfl⟩

/-- Read-only view of pattern-sized tile content, standing for a
`TiledGridSlice<T>` as the compatibility test consumes it: its size and its
checked lookup `get_checked` (total here; the embedded code only reads
coordinates inside the view, where the Rust lookup cannot fail by §4.1 of
the specification: wrap addressing makes every coordinate valid). -/
structure TiledGridSlice (T : Type) where
  size : Size
  get : Coord → T

/-- Embedding of `are_patterns_compatible` (overlapping.rs lines 13-36):
pattern `b` may sit immediately in direction `b_offset_direction` from
pattern `a`.  The Rust function asserts `a.size() == b.size()`; the
embedding computes with `a.size` exactly as the source does after that
assertion. -/
def are_patterns_compatible {T : Type} [DecidableEq T]
    (a b : TiledGridSlice T) (b_offset_direction : CardinalDirection) : Bool :=
  let size := a.size
  if size.x = 1 then
    true
  else
    let axis := b_offset_direction.axis
    let compare_size := size.with_axis axis (fun d => d - 1)
    let offsets : Coord × Coord :=
      match b_offset_direction with
      | .North => (⟨0, 0⟩, ⟨0, 1⟩)
      | .South => (⟨0, 1⟩, ⟨0, 0⟩)
      | .East => (⟨1, 0⟩, ⟨0, 0⟩)
      | .West => (⟨0, 0⟩, ⟨1, 0⟩)
    (coordIter compare_size).all
      (fun c => decide (a.get (c + offsets.1) = b.get (c + offsets.2)))

/-- Statement of the overlap condition of claim C1, written from the claim:
every sample of the overlapping sub-rectangle of size `S - 1` along the
direction's axis (full extent `S` on the other axis) matches between the
two views, under the per-direction offsets
North = (a:(0,0), b:(0,1)), South = (a:(0,1), b:(0,0)),
East = (a:(1,0), b:(0,0)), West = (a:(0,0), b:(1,0)). -/
def overlapMatches {T : Type} (a b : TiledGridSlice T) (S : Nat)
    (d : CardinalDirection) : Prop :=
  match d with
  | .North => ∀ x y, x < S → y < S - 1 → a.get ⟨x, y⟩ = b.get ⟨x, y + 1⟩
  | .South => ∀ x y, x < S → y < S - 1 → a.get ⟨x, y + 1⟩ = b.get ⟨x, y⟩
  | .East => ∀ x y, x < S - 1 → y < S → a.get ⟨x + 1, y⟩ = b.get ⟨x, y⟩
  | .West => ∀ x y, x < S - 1 → y < S → a.get ⟨x, y⟩ = b.get ⟨x + 1, y⟩

theorem are_patterns_compatible_all {T : Type} [DecidableEq T]
    (a b : TiledGridSlice T) (d : CardinalDirection) (aoff boff : Coord)
    (hx : a.size.x ≠ 1)
    (hoff : (match d with
      | .North => ((⟨0, 0⟩ : Coord), (⟨0, 1⟩ : Coord))
      | .South => (⟨0, 1⟩, ⟨0, 0⟩)
      | .East => (⟨1, 0⟩, ⟨0, 0⟩)
      | .West => (⟨0, 0⟩, ⟨1, 0⟩)) = (aoff, boff)) :
    are_patterns_compatible a b d =
      (coordIter (a.size.with_axis d.axis (fun n => n - 1))).all
        (fun c => decide (a.get (c + aoff) = b.get (c + boff))) := by
  unfold are_patterns_compatible
  simp only [if_neg hx, hoff]

theorem all_coordIter_iff {T : Type} [DecidableEq T] (w h : Nat) (f g : Coord → T) :
    ((coordIter ⟨w, h⟩).all (fun c => decide (f c = g c)) = true) ↔
      ∀ x y, x < w → y < h → f ⟨x, y⟩ = g ⟨x, y⟩ := by
  simp only [List.all_eq_true, decide_eq_true_eq]
  constructor
  · intro hall x y hx hy
    exact hall ⟨x, y⟩ (mem_coordIter.mpr ⟨hx, hy⟩)
  · intro hp c hc
    obtain ⟨h1, h2⟩ := mem_coordIter.mp hc
    exact hp c.x c.y h1 h2

/-- C1: for patterns of equal square size `S` with `S > 1`,
`are_patterns_compatible a b d` is true iff every sample in the overlapping
sub-rectangle of size `S - 1` along the direction's axis (full extent on the
other axis) matches between the two views, under the per-direction offsets
North = (a:(0,0), b:(0,1)), South = (a:(0,1), b:(0,0)),
East = (a:(1,0), b:(0,0)), West = (a:(0,0), b:(1,0)). -/
theorem compatible_iff_overlap_matches {T : Type} [DecidableEq T]
    (a b : TiledGridSlice T) (d : CardinalDirection) (S : Nat)
    (ha : a.size = ⟨S, S⟩) (hS : 1 < S) :
    (are_patterns_compatible a b d = true ↔ overlapMatches a b S d) := by
  have hx : a.size.x ≠ 1 := by
    rw [ha]
    show S ≠ 1
    omega
  cases d with
  | North =>
    rw [are_patterns_compatible_all a b .North ⟨0, 0⟩ ⟨0, 1⟩ hx rfl]
    have hcs : a.size.with_axis CardinalDirection.North.axis (fun n => n - 1)
        = ⟨S, S - 1⟩ := by rw [ha]; rfl
    rw [hcs,
      all_coordIter_iff S (S - 1) (fun c => a.get (c + ⟨0, 0⟩))
        (fun c => b.get (c + ⟨0, 1⟩))]
    unfold overlapMatches
    constructor
    · intro hp x y h1 h2
      simpa using hp x y h1 h2
    · intro hp x y h1 h2
      simpa using hp x y h1 h2
  | South =>
    rw [are_patterns_compatible_all a b .South ⟨0, 1⟩ ⟨0, 0⟩ hx rfl]
    have hcs : a.size.with_axis CardinalDirection.South.axis (fun n => n - 1)
        = ⟨S, S - 1⟩ := by rw [ha]; rfl
    rw [hcs,
      all_coordIter_iff S (S - 1) (fun c => a.get (c + ⟨0, 1⟩))
        (fun c => b.get (c + ⟨0, 0⟩))]
    unfold overlapMatches
    constructor
    · intro hp x y h1 h2
      simpa using hp x y h1 h2
    · intro hp x y h1 h2
      simpa using hp x y h1 h2
  | East =>
    rw [are_patterns_compatible_all a b .East ⟨1, 0⟩ ⟨0, 0⟩ hx rfl]
    have hcs : a.size.with_axis CardinalDirection.East.axis (fun n => n - 1)
        = ⟨S - 1, S⟩ := by rw [ha]; rfl
    rw [hcs,
      all_coordIter_iff (S - 1) S (fun c => a.get (c + ⟨1, 0⟩))
        (fun c => b.get (c + ⟨0, 0⟩))]
    unfold overlapMatches
    constructor
    · intro hp x y h1 h2
      simpa using hp x y h1 h2
    · intro hp x y h1 h2
      simpa using hp x y h1 h2
  | West =>
    rw [are_patterns_compatible_all a b .West ⟨0, 0⟩ ⟨1, 0⟩ hx rfl]
    have hcs : a.size.with_axis CardinalDirection.West.axis (fun n => n - 1)
        = ⟨S - 1, S⟩ := by rw [ha]; rfl
    rw [hcs,
      all_coordIter_iff (S - 1) S (fun c => a.get (c + ⟨0, 0⟩))
        (fun c => b.get (c + ⟨1, 0⟩))]
    unfold overlapMatches
    constructor
    · intro hp x y h1 h2
      simpa using hp x y h1 h2
    · intro hp x y h1 h2
      simpa using hp x y h1 h2

/-- Example slices used as concrete witnesses: 2 x 2 views into the test
grid of overlapping.rs (`[[r, b, b], [b, r, b]]` with wrap addressing),
anchored at (0,0) and (1,0). -/
def sliceA : TiledGridSlice Nat :=
  { size := ⟨2, 2⟩
    get := fun c => if (c.x % 3 = 1 ∧ c.y % 2 = 0) ∨ (c.x % 3 ≠ 1 ∧ c.y % 2 = 1) then 1 else 0 }

def sliceB : TiledGridSlice Nat :=
  { size := ⟨2, 2⟩
    get := fun c => sliceA.get (c + ⟨1, 0⟩) }

theorem compatible_iff_overlap_matches_witness :
    sliceA.size = ⟨2, 2⟩ ∧ 1 < 2 ∧
      (are_patterns_compatible sliceA sliceB CardinalDirection.East = true ↔
        overlapMatches sliceA sliceB 2 CardinalDirection.East) :=
  ⟨rfl, by decide,
    compatible_iff_overlap_matches sliceA sliceB CardinalDirection.East 2 rfl (by decide)⟩

theorem are_patterns_compatible_one {T : Type} [DecidableEq T]
    (a b : TiledGridSlice T) (d : CardinalDirection) (hx : a.size.x = 1) :
    are_patterns_compatible a b d = true := by
  unfold are_patterns_compatible
  simp [hx]

/-- C5: for views of equal size, compatibility East of `(a, b)` coincides
with compatibility West of `(b, a)`, and North of `(a, b)` with South of
`(b, a)`. -/
theorem compatible_direction_symm {T : Type} [DecidableEq T]
    (a b : TiledGridSlice T) (h : a.size = b.size) :
    (are_patterns_compatible a b CardinalDirection.East
      = are_patterns_compatible b a CardinalDirection.West) ∧
    (are_patterns_compatible a b CardinalDirection.North
      = are_patterns_compatible b a CardinalDirection.South) := by
  by_cases hx : a.size.x = 1
  · have hx' : b.size.x = 1 := by rw [← h]; exact hx
    rw [are_patterns_compatible_one a b _ hx, are_patterns_compatible_one b a _ hx',
      are_patterns_compatible_one a b _ hx, are_patterns_compatible_one b a _ hx']
    exact ⟨rfl, rfl⟩
  · have hx' : b.size.x ≠ 1 := by rw [← h]; exact hx
    constructor
    · rw [are_patterns_compatible_all a b .East ⟨1, 0⟩ ⟨0, 0⟩ hx rfl,
        are_patterns_compatible_all b a .West ⟨0, 0⟩ ⟨1, 0⟩ hx' rfl, h]
      congr 1
      funext c
      exact decide_eq_decide.mpr eq_comm
    · rw [are_patterns_compatible_all a b .North ⟨0, 0⟩ ⟨0, 1⟩ hx rfl,
        are_patterns_compatible_all b a .South ⟨0, 1⟩ ⟨0, 0⟩ hx' rfl, h]
      congr 1
      funext c
      exact decide_eq_decide.mpr eq_comm

theorem compatible_direction_symm_witness :
    sliceA.size = sliceB.size ∧
    ((are_patterns_compatible sliceA sliceB CardinalDirection.East
      = are_patterns_compatible sliceB sliceA CardinalDirection.West) ∧
    (are_patterns_compatible sliceA sliceB CardinalDirection.North
      = are_patterns_compatible sliceB sliceA CardinalDirection.South)) :=
  ⟨rfl, compatible_direction_symm sliceA sliceB rfl⟩

/-- C6: if the views' extent along the direction's axis is 1, the
compatibility test succeeds unconditionally: for the X axis via the
explicit early return of overlapping.rs line 20, and for the Y axis
because the comparison rectangle is empty. -/
theorem compatible_of_axis_extent_one {T : Type} [DecidableEq T]
    (a b : TiledGridSlice T) (d : CardinalDirection)
    (h : a.size = b.size) (hext : a.size.axisExtent d.axis = 1) :
    are_patterns_compatible a b d = true := by
  by_cases hx : a.size.x = 1
  · exact are_patterns_compatible_one a b d hx
  · cases d with
    | North =>
      rw [are_patterns_compatible_all a b .North ⟨0, 0⟩ ⟨0, 1⟩ hx rfl]
      have hy : a.size.y = 1 := hext
      have hcs : a.size.with_axis CardinalDirection.North.axis (fun n => n - 1)
          = ⟨a.size.x, 0⟩ := by
        simp [Size.with_axis, CardinalDirection.axis, hy]
      rw [hcs]
      simp [coordIter]
    | South =>
      rw [are_patterns_compatible_all a b .South ⟨0, 1⟩ ⟨0, 0⟩ hx rfl]
      have hy : a.size.y = 1 := hext
      have hcs : a.size.with_axis CardinalDirection.South.axis (fun n => n - 1)
          = ⟨a.size.x, 0⟩ := by
        simp [Size.with_axis, CardinalDirection.axis, hy]
      rw [hcs]
      simp [coordIter]
    | East => exact absurd hext hx
    | West => exact absurd hext hx

/-- Example slice of extent 1 used as a concrete witness. -/
def sliceTall : TiledGridSlice Nat :=
  { size := ⟨3, 1⟩
    get := fun c => c.x + 2 * c.y }

theorem compatible_of_axis_extent_one_witness :
    sliceTall.size = sliceTall.size ∧
    sliceTall.size.axisExtent CardinalDirection.North.axis = 1 ∧
    are_patterns_compatible sliceTall sliceTall CardinalDirection.North = true :=
  ⟨rfl, by decide,
    compatible_of_axis_extent_one sliceTall sliceTall CardinalDirection.North rfl (by decide)⟩

/-- Modelled from the spec (§3): one of the 8 symmetries of the square,
as in the repository's `orientation` module (not under src/). -/
inductive Orientation where
  | Original
  | Clockwise90
  | Clockwise180
  | Clockwise270
  | DiagonallyFlipped
  | DiagonallyFlippedClockwise90
  | DiagonallyFlippedClockwise180
  | DiagonallyFlippedClockwise270
deriving DecidableEq, Repr

/-- Modelled from the spec (§4.1): the orientation transform applied to a
read coordinate of a square view before lookup — a rotation or reflection
of the view rectangle.  The repository's `orientation` module (not under
src/) holds the concrete formulas; none of the verified claims depends on
which symmetry each constructor denotes, only on the transform being a
fixed function of the orientation. -/
def Orientation.transform (o : Orientation) (size : Size) (c : Coord) : Coord :=
  match o with
  | .Original => c
  | .Clockwise90 => ⟨size.y - 1 - c.y, c.x⟩
  | .Clockwise180 => ⟨size.x - 1 - c.x, size.y - 1 - c.y⟩
  | .Clockwise270 => ⟨c.y, size.x - 1 - c.x⟩
  | .DiagonallyFlipped => ⟨c.y, c.x⟩
  | .DiagonallyFlippedClockwise90 => ⟨size.y - 1 - c.x, c.y⟩
  | .DiagonallyFlippedClockwise180 => ⟨size.x - 1 - c.y, size.y - 1 - c.x⟩
  | .DiagonallyFlippedClockwise270 => ⟨c.x, size.x - 1 - c.y⟩

/-- Rectangular array of samples, as `grid_2d::Grid<T>`: a size and the
sample stored at each in-range coordinate (total function; only in-range
and wrap-reduced coordinates are ever read). -/
structure Grid (T : Type) where
  size : Size
  data : Coord → T

/-- Modelled from the spec (§4.1): wrap-addressed lookup — coordinates
outside the grid wrap modulo the grid size, so lookups never fail. -/
def Grid.wrapGet {T : Type} (g : Grid T) (c : Coord) : T :=
  g.data ⟨c.x % g.size.x, c.y % g.size.y⟩

/-- Modelled from the spec (§4.1, §3): the logical cell (i, j) of a
`TiledGridSlice` anchored at `anchor` equals the grid sample at the
orientation-transformed, wrap-adjusted coordinate
`anchor + transform(i, j)`. -/
def viewGet {T : Type} (g : Grid T) (psize : Size) (anchor : Coord)
    (o : Orientation) (c : Coord) : T :=
  g.wrapGet (anchor + o.transform psize c)

/-- Modelled from the spec (§3): the content signature of a `TiledGridSlice`
in row-major order.  Two views are equal iff every corresponding
transformed sample compares equal, i.e. iff these lists are equal. -/
def viewContent {T : Type} (g : Grid T) (psize : Size) (anchor : Coord)
    (o : Orientation) : List T :=
  (coordIter psize).map (viewGet g psize anchor o)

/-- Pattern id (`PatternId = u32`). -/
abbrev PatternId := Nat

/-- Embedding of `overlapping::Pattern` (overlapping.rs lines 38-44):
dense id, occurrence coordinates, occurrence count, and the orientation
of the canonical (first-seen) occurrence. -/
structure Pattern where
  id : PatternId
  coords : List Coord
  count : Nat
  orientation : Orientation
deriving DecidableEq, Repr

instance : Inhabited Pattern := ⟨⟨0, [], 0, .Original⟩⟩

/-- Embedding of `Pattern::coord` (overlapping.rs line 62): the first
occurrence coordinate.  The Rust code indexes `coords[0]`, which panics on
an empty list; here a default of (0,0) keeps the function total, and the
freshness invariant (claim C9) shows the list is never empty in a table
produced by `OverlappingPatterns::new`. -/
def Pattern.coordD (p : Pattern) : Coord :=
  p.coords.headD ⟨0, 0⟩

/-- Content signature of a pattern's canonical tiled slice
(`Pattern::tiled_grid_slice` at the first occurrence coordinate and
canonical orientation). -/
def patternContent {T : Type} (g : Grid T) (psize : Size) (p : Pattern) : List T :=
  viewContent g psize p.coordD p.orientation

/-- State of the extraction loop of `OverlappingPatterns::new`: the
content-keyed pattern map (an association list in insertion order, standing
for the `HashMap` plus the final sort by id — ids are assigned in insertion
order, so sorting the drained entries by id recovers exactly the insertion
order), the next fresh id, and the per-(coordinate, orientation) id grid. -/
structure ExtractState (T : Type) where
  patternMap : List (List T × Pattern)
  nextId : Nat
  idGrid : Coord → Orientation → Option PatternId

/-- One `pattern_map.entry(..).or_insert_with(..)` step followed by the
occurrence push, count increment and id read (overlapping.rs lines 93-100):
if the content is present, append the coordinate and bump the count of its
pattern; otherwise append a fresh pattern with the next id.  Returns the
updated map, the updated next id and the id of the touched pattern. -/
def insertOccurrence {T : Type} [DecidableEq T] (content : List T)
    (coord : Coord) (o : Orientation) (nextId : Nat) :
    List (List T × Pattern) → List (List T × Pattern) × Nat × PatternId
  | [] => ([(content, ⟨nextId, [coord], 1, o⟩)], nextId + 1, nextId)
  | (k, p) :: rest =>
    if k = content then
      ((k, { p with coords := p.coords ++ [coord], count := p.count + 1 }) :: rest,
        nextId, p.id)
    else
      let r := insertOccurrence content coord o nextId rest
      ((k, p) :: r.1, r.2)

/-- One iteration of the extraction loop of `OverlappingPatterns::new`
(overlapping.rs lines 89-104) for one (orientation, coordinate) pair:
update the pattern map and record the pattern id for the pair in the id
grid (`id_grid.get_checked_mut(coord).insert(orientation, pattern.id)`). -/
def extractStep {T : Type} [DecidableEq T] (g : Grid T) (psize : Size)
    (st : ExtractState T) (oc : Orientation × Coord) : ExtractState T :=
  let content := viewContent g psize oc.2 oc.1
  let r := insertOccurrence content oc.2 oc.1 st.nextId st.patternMap
  { patternMap := r.1
    nextId := r.2.1
    idGrid := fun c o =>
      if c = oc.2 ∧ o = oc.1 then some r.2.2 else st.idGrid c o }

/-- Enumeration order of the extraction loop: requested orientations outer,
grid coordinates (row-major) inner. -/
def extractPairs {T : Type} (g : Grid T) (orientations : List Orientation) :
    List (Orientation × Coord) :=
  orientations.flatMap (fun o => (coordIter g.size).map (fun c => (o, c)))

/-- Embedding of `OverlappingPatterns<T>` (overlapping.rs lines 70-75). -/
structure OverlappingPatterns (T : Type) where
  pattern_table : List Pattern
  pattern_size : Size
  grid : Grid T
  id_grid : Coord → Orientation → Option PatternId

/-- Embedding of `OverlappingPatterns::new` (overlapping.rs lines 78-119).
The `NonZeroU32` pattern size is a `Nat`; the square `Size` is built from
it as in line 83.  The drained map sorted by id equals the insertion-order
association list because ids are assigned sequentially in insertion
order. -/
def OverlappingPatterns.new {T : Type} [DecidableEq T] (g : Grid T)
    (pattern_size : Nat) (orientations : List Orientation) :
    OverlappingPatterns T :=
  let psize : Size := ⟨pattern_size, pattern_size⟩
  let st := (extractPairs g orientations).foldl (extractStep g psize)
    ⟨[], 0, fun _ _ => none⟩
  { pattern_table := st.patternMap.map (fun e => e.2)
    pattern_size := psize
    grid := g
    id_grid := st.idGrid }

/-- First-seen deduplication with an accumulator: the distinct elements of
a list in order of first occurrence, appended after `acc`. -/
def firstOccurrencesFrom {α : Type} [DecidableEq α] (acc : List α) :
    List α → List α
  | [] => acc
  | a :: l => firstOccurrencesFrom (if a ∈ acc then acc else acc ++ [a]) l

/-- Distinct elements of a list in order of first occurrence. -/
def firstOccurrences {α : Type} [DecidableEq α] (l : List α) : List α :=
  firstOccurrencesFrom [] l

theorem insertOccurrence_keys {T : Type} [DecidableEq T] (content : List T)
    (coord : Coord) (o : Orientation) (nextId : Nat)
    (m : List (List T × Pattern)) :
    (insertOccurrence content coord o nextId m).1.map (fun e => e.1)
      = if content ∈ m.map (fun e => e.1) then m.map (fun e => e.1)
        else m.map (fun e => e.1) ++ [content] := by
  induction m with
  | nil => simp [insertOccurrence]
  | cons e rest ih =>
    obtain ⟨k, p⟩ := e
    by_cases hk : k = content
    · subst hk
      simp [insertOccurrence]
    · simp only [insertOccurrence, if_neg hk, List.map_cons]
      rw [ih]
      by_cases hmem : content ∈ rest.map (fun e => e.1)
      · simp [hmem, Ne.symm hk]
      · simp [hmem, Ne.symm hk]

theorem insertOccurrence_ids {T : Type} [DecidableEq T] (content : List T)
    (coord : Coord) (o : Orientation) (nextId : Nat)
    (m : List (List T × Pattern)) :
    (insertOccurrence content coord o nextId m).1.map (fun e => e.2.id)
      = if content ∈ m.map (fun e => e.1) then m.map (fun e => e.2.id)
        else m.map (fun e => e.2.id) ++ [nextId] := by
  induction m with
  | nil => simp [insertOccurrence]
  | cons e rest ih =>
    obtain ⟨k, p⟩ := e
    by_cases hk : k = content
    · subst hk
      simp [insertOccurrence]
    · simp only [insertOccurrence, if_neg hk, List.map_cons]
      rw [ih]
      by_cases hmem : content ∈ rest.map (fun e => e.1)
      · simp [hmem, Ne.symm hk]
      · simp [hmem, Ne.symm hk]

theorem insertOccurrence_nextId {T : Type} [DecidableEq T] (content : List T)
    (coord : Coord) (o : Orientation) (nextId : Nat)
    (m : List (List T × Pattern)) :
    (insertOccurrence content coord o nextId m).2.1
      = if content ∈ m.map (fun e => e.1) then nextId else nextId + 1 := by
  induction m with
  | nil => simp [insertOccurrence]
  | cons e rest ih =>
    obtain ⟨k, p⟩ := e
    by_cases hk : k = content
    · subst hk
      simp [insertOccurrence]
    · simp only [insertOccurrence, if_neg hk, List.map_cons]
      rw [ih]
      by_cases hmem : content ∈ rest.map (fun e => e.1)
      · simp [hmem, Ne.symm hk]
      · simp [hmem, Ne.symm hk]

theorem insertOccurrence_entries {T : Type} [DecidableEq T] (content : List T)
    (coord : Coord) (o : Orientation) (nextId : Nat)
    (m : List (List T × Pattern)) :
    ∀ e' ∈ (insertOccurrence content coord o nextId m).1,
      (∃ e ∈ m, e'.1 = e.1 ∧ e'.2.id = e.2.id
        ∧ e'.2.orientation = e.2.orientation
        ∧ (e'.2.coords = e.2.coords ∨ e'.2.coords = e.2.coords ++ [coord])
        ∧ e.2.count ≤ e'.2.count)
      ∨ e' = (content, ⟨nextId, [coord], 1, o⟩) := by
  induction m with
  | nil =>
    intro e' he'
    simp only [insertOccurrence, List.mem_singleton] at he'
    right
    exact he'
  | cons e rest ih =>
    obtain ⟨k, p⟩ := e
    intro e' he'
    by_cases hk : k = content
    · subst hk
      simp only [insertOccurrence, if_pos rfl] at he'
      rcases List.mem_cons.mp he' with h | h
      · left
        exact ⟨(k, p), List.mem_cons_self _ _, by
          subst h
          exact ⟨rfl, rfl, rfl, Or.inr rfl, Nat.le_succ _⟩⟩
      · left
        exact ⟨e', List.mem_cons_of_mem _ h, rfl, rfl, rfl, Or.inl rfl, le_refl _⟩
    · simp only [insertOccurrence, if_neg hk] at he'
      rcases List.mem_cons.mp he' with h | h
      · left
        exact ⟨(k, p), List.mem_cons_self _ _, by
          subst h
          exact ⟨rfl, rfl, rfl, Or.inl rfl, le_refl _⟩⟩
      · rcases ih e' h with ⟨e, hmem, hp⟩ | hnew
        · exact Or.inl ⟨e, List.mem_cons_of_mem _ hmem, hp⟩
        · exact Or.inr hnew

theorem insertOccurrence_found {T : Type} [DecidableEq T] (content : List T)
    (coord : Coord) (o : Orientation) (nextId : Nat)
    (m : List (List T × Pattern)) :
    ∃ e ∈ (insertOccurrence content coord o nextId m).1,
      e.2.id = (insertOccurrence content coord o nextId m).2.2
        ∧ e.1 = content := by
  induction m with
  | nil =>
    exact ⟨(content, ⟨nextId, [coord], 1, o⟩), List.mem_singleton_self _, rfl, rfl⟩
  | cons e rest ih =>
    obtain ⟨k, p⟩ := e
    by_cases hk : k = content
    · subst hk
      simp only [insertOccurrence, if_pos rfl]
      exact ⟨_, List.mem_cons_self _ _, rfl, rfl⟩
    · simp only [insertOccurrence, if_neg hk]
      obtain ⟨e, hmem, h1, h2⟩ := ih
      exact ⟨e, List.mem_cons_of_mem _ hmem, h1, h2⟩

theorem insertOccurrence_mono {T : Type} [DecidableEq T] (content : List T)
    (coord : Coord) (o : Orientation) (nextId : Nat)
    (m : List (List T × Pattern)) :
    ∀ e ∈ m, ∃ e' ∈ (insertOccurrence content coord o nextId m).1,
      e'.1 = e.1 ∧ e'.2.id = e.2.id := by
  induction m with
  | nil =>
    intro e he
    exact absurd he (List.not_mem_nil e)
  | cons hd rest ih =>
    obtain ⟨k, p⟩ := hd
    intro e he
    by_cases hk : k = content
    · subst hk
      simp only [insertOccurrence, if_pos rfl]
      rcases List.mem_cons.mp he with h | h
      · subst h
        exact ⟨_, List.mem_cons_self _ _, rfl, rfl⟩
      · exact ⟨e, List.mem_cons_of_mem _ h, rfl, rfl⟩
    · simp only [insertOccurrence, if_neg hk]
      rcases List.mem_cons.mp he with h | h
      · exact ⟨(k, p), List.mem_cons_self _ _, by rw [h], by rw [h]⟩
      · obtain ⟨e', hmem, h1, h2⟩ := ih e h
        exact ⟨e', List.mem_cons_of_mem _ hmem, h1, h2⟩

theorem headD_append_of_ne_nil {α : Type} (l : List α) (x d : α)
    (h : l ≠ []) : (l ++ [x]).headD d = l.headD d := by
  cases l with
  | nil => exact absurd rfl h
  | cons a t => rfl

/-- Invariant of the extraction loop: ids are the positions 0..n-1 in map
order, the next id is the map length, every entry's key is the content of
its pattern's canonical slice with a non-empty coordinate list and a
positive count, and every id-grid entry points to a pattern of the map
whose key is the content extracted at that (coordinate, orientation). -/
structure MapInv {T : Type} [DecidableEq T] (g : Grid T) (psize : Size)
    (st : ExtractState T) : Prop where
  ids_eq : st.patternMap.map (fun e => e.2.id)
    = List.range st.patternMap.length
  next_eq : st.nextId = st.patternMap.length
  entries : ∀ e ∈ st.patternMap,
    patternContent g psize e.2 = e.1 ∧ e.2.coords ≠ [] ∧ 1 ≤ e.2.count
  idGrid_sound : ∀ c o i, st.idGrid c o = some i →
    ∃ e ∈ st.patternMap, e.2.id = i ∧ e.1 = viewContent g psize c o

theorem mapInv_init {T : Type} [DecidableEq T] (g : Grid T) (psize : Size) :
    MapInv g psize (⟨[], 0, fun _ _ => none⟩ : ExtractState T) := by
  refine ⟨rfl, rfl, ?_, ?_⟩
  · intro e he
    exact absurd he (List.not_mem_nil e)
  · intro c o i h
    exact absurd h (by simp)

theorem extractStep_inv {T : Type} [DecidableEq T] (g : Grid T) (psize : Size)
    (st : ExtractState T) (oc : Orientation × Coord)
    (h : MapInv g psize st) : MapInv g psize (extractStep g psize st oc) := by
  set content := viewContent g psize oc.2 oc.1 with hcontent
  have hlen : ∀ (l : List (List T × Pattern)),
      (l.map (fun e => e.1)).length = l.length := fun l => List.length_map l _
  refine ⟨?_, ?_, ?_, ?_⟩
  · show (insertOccurrence content oc.2 oc.1 st.nextId st.patternMap).1.map
        (fun e => e.2.id)
      = List.range (insertOccurrence content oc.2 oc.1 st.nextId st.patternMap).1.length
    rw [insertOccurrence_ids]
    have hklen := congrArg List.length
      (insertOccurrence_keys content oc.2 oc.1 st.nextId st.patternMap)
    rw [hlen] at hklen
    by_cases hmem : content ∈ st.patternMap.map (fun e => e.1)
    · rw [if_pos hmem]
      rw [if_pos hmem, hlen] at hklen
      rw [hklen, h.ids_eq]
    · rw [if_neg hmem]
      rw [if_neg hmem, List.length_append, hlen] at hklen
      rw [hklen, h.ids_eq, h.next_eq]
      simp [List.range_succ]
  · show (insertOccurrence content oc.2 oc.1 st.nextId st.patternMap).2.1
      = (insertOccurrence content oc.2 oc.1 st.nextId st.patternMap).1.length
    rw [insertOccurrence_nextId]
    have hklen := congrArg List.length
      (insertOccurrence_keys content oc.2 oc.1 st.nextId st.patternMap)
    rw [hlen] at hklen
    by_cases hmem : content ∈ st.patternMap.map (fun e => e.1)
    · rw [if_pos hmem]
      rw [if_pos hmem, hlen] at hklen
      rw [hklen, h.next_eq]
    · rw [if_neg hmem]
      rw [if_neg hmem, List.length_append, hlen] at hklen
      rw [hklen, h.next_eq]
      simp
  · intro e' he'
    rcases insertOccurrence_entries content oc.2 oc.1 st.nextId st.patternMap e' he'
      with ⟨e, hmem, hkey, hid, hor, hcoords, hcount⟩ | hnew
    · obtain ⟨hc, hne, hcnt⟩ := h.entries e hmem
      have hcoordD : e'.2.coordD = e.2.coordD := by
        rcases hcoords with hh | hh
        · unfold Pattern.coordD
          rw [hh]
        · unfold Pattern.coordD
          rw [hh, headD_append_of_ne_nil _ _ _ hne]
      refine ⟨?_, ?_, ?_⟩
      · unfold patternContent at hc ⊢
        rw [hcoordD, hor, hc, hkey]
      · rcases hcoords with hh | hh
        · rw [hh]; exact hne
        · rw [hh]
          intro habs
          exact hne (List.append_eq_nil.mp habs).1
      · exact le_trans hcnt hcount
    · rw [hnew]
      refine ⟨?_, by simp, le_refl 1⟩
      show patternContent g psize ⟨st.nextId, [oc.2], 1, oc.1⟩ = content
      unfold patternContent Pattern.coordD
      rw [hcontent]
      rfl
  · intro c o i hci
    simp only [extractStep] at hci
    by_cases hco : c = oc.2 ∧ o = oc.1
    · rw [if_pos hco] at hci
      obtain ⟨e, hmem, hid, hkey⟩ :=
        insertOccurrence_found content oc.2 oc.1 st.nextId st.patternMap
      refine ⟨e, hmem, ?_, ?_⟩
      · rw [hid]
        exact Option.some_injective _ hci
      · rw [hkey, hcontent, hco.1, hco.2]
    · rw [if_neg hco] at hci
      obtain ⟨e, hmem, hid, hkey⟩ := h.idGrid_sound c o i hci
      obtain ⟨e', hmem', hkey', hid'⟩ :=
        insertOccurrence_mono content oc.2 oc.1 st.nextId st.patternMap e hmem
      exact ⟨e', hmem', by rw [hid', hid], by rw [hkey', hkey]⟩

theorem extractLoop_inv {T : Type} [DecidableEq T] (g : Grid T) (psize : Size)
    (pairs : List (Orientation × Coord)) (st : ExtractState T)
    (h : MapInv g psize st) :
    MapInv g psize (pairs.foldl (extractStep g psize) st) := by
  induction pairs generalizing st with
  | nil => exact h
  | cons p rest ih => exact ih _ (extractStep_inv g psize st p h)

theorem extractLoop_keys {T : Type} [DecidableEq T] (g : Grid T) (psize : Size)
    (pairs : List (Orientation × Coord)) (st : ExtractState T) :
    (pairs.foldl (extractStep g psize) st).patternMap.map (fun e => e.1)
      = firstOccurrencesFrom (st.patternMap.map (fun e => e.1))
          (pairs.map (fun oc => viewContent g psize oc.2 oc.1)) := by
  induction pairs generalizing st with
  | nil => rfl
  | cons p rest ih =>
    rw [List.foldl_cons, ih, List.map_cons]
    show firstOccurrencesFrom
        ((extractStep g psize st p).patternMap.map (fun e => e.1)) _
      = firstOccurrencesFrom _ _
    rw [firstOccurrencesFrom]
    congr 1
    have hstep : (extractStep g psize st p).patternMap
        = (insertOccurrence (viewContent g psize p.2 p.1) p.2 p.1
            st.nextId st.patternMap).1 := rfl
    rw [hstep, insertOccurrence_keys (viewContent g psize p.2 p.1) p.2 p.1
      st.nextId st.patternMap]
    by_cases hmem : viewContent g psize p.2 p.1 ∈ st.patternMap.map (fun e => e.1)
    · rw [if_pos hmem, if_pos hmem]
    · rw [if_neg hmem, if_neg hmem]

theorem mem_firstOccurrencesFrom {α : Type} [DecidableEq α] (l : List α)
    (acc : List α) (x : α) :
    x ∈ firstOccurrencesFrom acc l ↔ x ∈ acc ∨ x ∈ l := by
  induction l generalizing acc with
  | nil => simp [firstOccurrencesFrom]
  | cons a t ih =>
    rw [firstOccurrencesFrom, ih]
    by_cases ha : a ∈ acc
    · rw [if_pos ha]
      constructor
      · rintro (h | h)
        · exact Or.inl h
        · exact Or.inr (List.mem_cons_of_mem _ h)
      · rintro (h | h)
        · exact Or.inl h
        · rcases List.mem_cons.mp h with rfl | h
          · exact Or.inl ha
          · exact Or.inr h
    · rw [if_neg ha]
      constructor
      · rintro (h | h)
        · rcases List.mem_append.mp h with h | h
          · exact Or.inl h
          · exact Or.inr (List.mem_cons.mpr (Or.inl (List.mem_singleton.mp h)))
        · exact Or.inr (List.mem_cons_of_mem _ h)
      · rintro (h | h)
        · exact Or.inl (List.mem_append.mpr (Or.inl h))
        · rcases List.mem_cons.mp h with rfl | h
          · exact Or.inl (List.mem_append.mpr (Or.inr (List.mem_singleton_self _)))
          · exact Or.inr h

theorem nodup_firstOccurrencesFrom {α : Type} [DecidableEq α] (l : List α)
    (acc : List α) (h : acc.Nodup) :
    (firstOccurrencesFrom acc l).Nodup := by
  induction l generalizing acc with
  | nil => exact h
  | cons a t ih =>
    rw [firstOccurrencesFrom]
    by_cases ha : a ∈ acc
    · rw [if_pos ha]
      exact ih _ h
    · rw [if_neg ha]
      refine ih _ ?_
      rw [List.nodup_append]
      refine ⟨h, List.nodup_singleton _, ?_⟩
      intro x hx hxa
      rw [List.mem_singleton] at hxa
      subst hxa
      exact ha hx

theorem extractLoop_idGrid_mono {T : Type} [DecidableEq T] (g : Grid T)
    (psize : Size) (pairs : List (Orientation × Coord)) (st : ExtractState T)
    (c : Coord) (o : Orientation) (h : (st.idGrid c o).isSome) :
    (((pairs.foldl (extractStep g psize) st)).idGrid c o).isSome := by
  induction pairs generalizing st with
  | nil => exact h
  | cons p rest ih =>
    rw [List.foldl_cons]
    refine ih _ ?_
    show (if c = p.2 ∧ o = p.1 then some _ else st.idGrid c o).isSome
    by_cases hco : c = p.2 ∧ o = p.1
    · rw [if_pos hco]
      rfl
    · rw [if_neg hco]
      exact h

theorem extractLoop_idGrid_some {T : Type} [DecidableEq T] (g : Grid T)
    (psize : Size) (pairs : List (Orientation × Coord)) (st : ExtractState T) :
    ∀ oc ∈ pairs, ((pairs.foldl (extractStep g psize) st).idGrid oc.2 oc.1).isSome := by
  induction pairs generalizing st with
  | nil =>
    intro oc hoc
    exact absurd hoc (List.not_mem_nil oc)
  | cons p rest ih =>
    intro oc hoc
    rw [List.foldl_cons]
    rcases List.mem_cons.mp hoc with rfl | hmem
    · refine extractLoop_idGrid_mono g psize rest _ oc.2 oc.1 ?_
      show (if oc.2 = oc.2 ∧ oc.1 = oc.1 then some _ else _).isSome
      rw [if_pos ⟨rfl, rfl⟩]
      rfl
    · exact ih _ oc hmem

theorem extractLoop_idGrid_untouched {T : Type} [DecidableEq T] (g : Grid T)
    (psize : Size) (pairs : List (Orientation × Coord)) (st : ExtractState T)
    (c : Coord) (o : Orientation)
    (h : ∀ oc ∈ pairs, ¬(c = oc.2 ∧ o = oc.1)) :
    (pairs.foldl (extractStep g psize) st).idGrid c o = st.idGrid c o := by
  induction pairs generalizing st with
  | nil => rfl
  | cons p rest ih =>
    rw [List.foldl_cons, ih _ (fun oc hoc => h oc (List.mem_cons_of_mem _ hoc))]
    show (if c = p.2 ∧ o = p.1 then some _ else st.idGrid c o) = st.idGrid c o
    rw [if_neg (h p (List.mem_cons_self _ _))]

theorem new_inv {T : Type} [DecidableEq T] (g : Grid T) (p : Nat)
    (orients : List Orientation) :
    MapInv g ⟨p, p⟩ ((extractPairs g orients).foldl
      (extractStep g ⟨p, p⟩) ⟨[], 0, fun _ _ => none⟩) :=
  extractLoop_inv g ⟨p, p⟩ (extractPairs g orients) _ (mapInv_init g ⟨p, p⟩)

theorem new_map_patternContent {T : Type} [DecidableEq T] (g : Grid T)
    (p : Nat) (orients : List Orientation) :
    (OverlappingPatterns.new g p orients).pattern_table.map
        (patternContent g ⟨p, p⟩)
      = ((extractPairs g orients).foldl (extractStep g ⟨p, p⟩)
          ⟨[], 0, fun _ _ => none⟩).patternMap.map (fun e => e.1) := by
  show (((extractPairs g orients).foldl (extractStep g ⟨p, p⟩)
      ⟨[], 0, fun _ _ => none⟩).patternMap.map (fun e => e.2)).map
        (patternContent g ⟨p, p⟩) = _
  rw [List.map_map]
  exact List.map_congr_left (fun e he => ((new_inv g p orients).entries e he).1)

/-- C2: the pattern table of `OverlappingPatterns::new` holds exactly one
pattern per distinct tiled-view content observed over all
(coordinate, requested orientation) pairs — its canonical contents list the
distinct observed contents in first-discovery order, without duplicates,
and covers exactly the observed contents — and the assigned pattern ids
are the contiguous integers 0, 1, ... in that discovery order. -/
theorem new_pattern_table_dedup {T : Type} [DecidableEq T] (g : Grid T)
    (p : Nat) (orients : List Orientation) :
    ((OverlappingPatterns.new g p orients).pattern_table.map
        (patternContent g ⟨p, p⟩)
      = firstOccurrences ((extractPairs g orients).map
          (fun oc => viewContent g ⟨p, p⟩ oc.2 oc.1)))
    ∧ ((OverlappingPatterns.new g p orients).pattern_table.map
        (patternContent g ⟨p, p⟩)).Nodup
    ∧ (∀ content,
        content ∈ (extractPairs g orients).map
          (fun oc => viewContent g ⟨p, p⟩ oc.2 oc.1)
        ↔ content ∈ (OverlappingPatterns.new g p orients).pattern_table.map
            (patternContent g ⟨p, p⟩))
    ∧ (OverlappingPatterns.new g p orients).pattern_table.map Pattern.id
      = List.range (OverlappingPatterns.new g p orients).pattern_table.length := by
  have hpc := new_map_patternContent g p orients
  have hkeys := extractLoop_keys g ⟨p, p⟩ (extractPairs g orients)
    ⟨[], 0, fun _ _ => none⟩
  have hfo : (OverlappingPatterns.new g p orients).pattern_table.map
      (patternContent g ⟨p, p⟩)
      = firstOccurrences ((extractPairs g orients).map
          (fun oc => viewContent g ⟨p, p⟩ oc.2 oc.1)) := by
    rw [hpc, hkeys]
    rfl
  refine ⟨hfo, ?_, ?_, ?_⟩
  · rw [hfo]
    exact nodup_firstOccurrencesFrom _ [] (List.nodup_nil)
  · intro content
    rw [hfo]
    unfold firstOccurrences
    rw [mem_firstOccurrencesFrom]
    simp only [List.not_mem_nil, false_or]
  · have hids := (new_inv g p orients).ids_eq
    show (((extractPairs g orients).foldl (extractStep g ⟨p, p⟩)
        ⟨[], 0, fun _ _ => none⟩).patternMap.map (fun e => e.2)).map Pattern.id
      = List.range (((extractPairs g orients).foldl (extractStep g ⟨p, p⟩)
        ⟨[], 0, fun _ _ => none⟩).patternMap.map (fun e => e.2)).length
    rw [List.map_map, List.length_map]
    exact hids

/-- C9: every pattern of a freshly extracted table has a non-empty
occurrence-coordinate list and a count of at least 1, its first occurrence
coordinate is defined (so `Pattern::coord`, which indexes `coords[0]`,
cannot panic), and its id indexes inside the table (so
`pattern_top_left_value`, which indexes the table at the id, cannot
panic either). -/
theorem new_pattern_table_occurrences {T : Type} [DecidableEq T] (g : Grid T)
    (p : Nat) (orients : List Orientation) (pat : Pattern)
    (hmem : pat ∈ (OverlappingPatterns.new g p orients).pattern_table) :
    pat.coords ≠ [] ∧ 1 ≤ pat.count ∧ pat.coords.head? = some pat.coordD
      ∧ pat.id < (OverlappingPatterns.new g p orients).pattern_table.length := by
  have hinv := new_inv g p orients
  have hmem' : pat ∈ ((extractPairs g orients).foldl (extractStep g ⟨p, p⟩)
      ⟨[], 0, fun _ _ => none⟩).patternMap.map (fun e => e.2) := hmem
  obtain ⟨e, he, hpe⟩ := List.mem_map.mp hmem'
  obtain ⟨hc, hne, hcnt⟩ := hinv.entries e he
  subst hpe
  refine ⟨hne, hcnt, ?_, ?_⟩
  · cases hl : e.2.coords with
    | nil => exact absurd hl hne
    | cons a t =>
      unfold Pattern.coordD
      rw [hl]
      rfl
  · have hin : e.2.id ∈ ((extractPairs g orients).foldl (extractStep g ⟨p, p⟩)
        ⟨[], 0, fun _ _ => none⟩).patternMap.map (fun x => x.2.id) :=
      List.mem_map.mpr ⟨e, he, rfl⟩
    rw [hinv.ids_eq] at hin
    have hlt := List.mem_range.mp hin
    show e.2.id < (((extractPairs g orients).foldl (extractStep g ⟨p, p⟩)
      ⟨[], 0, fun _ _ => none⟩).patternMap.map (fun e => e.2)).length
    rw [List.length_map]
    exact hlt

/-- Concrete 1 x 1 grid used in witnesses. -/
def grid1 : Grid Nat := ⟨⟨1, 1⟩, fun _ => 7⟩

theorem new_pattern_table_occurrences_witness :
    (⟨0, [⟨0, 0⟩], 1, Orientation.Original⟩ : Pattern)
        ∈ (OverlappingPatterns.new grid1 1 [Orientation.Original]).pattern_table
      ∧ ((⟨0, [⟨0, 0⟩], 1, Orientation.Original⟩ : Pattern).coords ≠ []
      ∧ 1 ≤ (⟨0, [⟨0, 0⟩], 1, Orientation.Original⟩ : Pattern).count
      ∧ (⟨0, [⟨0, 0⟩], 1, Orientation.Original⟩ : Pattern).coords.head?
          = some (⟨0, [⟨0, 0⟩], 1, Orientation.Original⟩ : Pattern).coordD
      ∧ (⟨0, [⟨0, 0⟩], 1, Orientation.Original⟩ : Pattern).id
          < (OverlappingPatterns.new grid1 1 [Orientation.Original]).pattern_table.length) :=
  ⟨by decide, new_pattern_table_occurrences grid1 1 [Orientation.Original]
    ⟨0, [⟨0, 0⟩], 1, Orientation.Original⟩ (by decide)⟩

/-- Sequence a list of fallible lookups, failing if any fails — the shape
of `Grid::new_fn` over a closure that can panic: `none` stands for the
panic of the closure on some cell, `some` for a normal return with the
per-cell results in row-major order. -/
def optionTraverse {α β : Type} (f : α → Option β) : List α → Option (List β)
  | [] => some []
  | a :: l =>
    match f a, optionTraverse f l with
    | some b, some bs => some (b :: bs)
    | _, _ => none

theorem optionTraverse_eq_none {α β : Type} (f : α → Option β) (l : List α)
    (a : α) (ha : a ∈ l) (hfa : f a = none) : optionTraverse f l = none := by
  induction l with
  | nil => exact absurd ha (List.not_mem_nil a)
  | cons b t ih =>
    rcases List.mem_cons.mp ha with rfl | hmem
    · rw [optionTraverse, hfa]
    · rw [optionTraverse, ih hmem]
      cases f b <;> rfl

theorem optionTraverse_forall₂ {α β : Type} (f : α → Option β) (l : List α)
    (h : ∀ a ∈ l, (f a).isSome) :
    ∃ l', optionTraverse f l = some l'
      ∧ List.Forall₂ (fun a b => f a = some b) l l' := by
  induction l with
  | nil => exact ⟨[], rfl, List.Forall₂.nil⟩
  | cons a t ih =>
    obtain ⟨l', hl', hfa⟩ := ih (fun x hx => h x (List.mem_cons_of_mem _ hx))
    obtain ⟨b, hb⟩ := Option.isSome_iff_exists.mp (h a (List.mem_cons_self _ _))
    refine ⟨b :: l', ?_, List.Forall₂.cons hb hfa⟩
    rw [optionTraverse, hb, hl']

/-- Embedding of `OverlappingPatterns::id_grid_original_orientation`
(overlapping.rs lines 143-152): the per-source-cell grid of pattern ids
under the Original orientation.  The Rust closure calls
`.expect("Missing original orientation")` per cell, which panics when a
cell has no Original entry — modelled as `none`; a normal return is `some`
of the row-major (coordinate, id) list. -/
def OverlappingPatterns.id_grid_original_orientation {T : Type}
    (op : OverlappingPatterns T) : Option (List (Coord × PatternId)) :=
  optionTraverse
    (fun c => (op.id_grid c Orientation.Original).map (fun i => (c, i)))
    (coordIter op.grid.size)

/-- C10 (amended): when `Orientation::Original` was requested at
construction, `id_grid_original_orientation` succeeds and returns, per
source cell, the pattern id recorded for that cell under the Original
orientation — an id of a table pattern whose canonical content is the
view content extracted at that cell under Original; when Original was not
requested, it panics provided the grid has at least one cell (on an empty
grid the closure never runs, so the call trivially succeeds). -/
theorem id_grid_original_orientation_spec {T : Type} [DecidableEq T]
    (g : Grid T) (p : Nat) (orients : List Orientation) :
    (Orientation.Original ∈ orients →
      ∃ l, (OverlappingPatterns.new g p orients).id_grid_original_orientation
          = some l
        ∧ List.Forall₂ (fun c pr => pr.1 = c
            ∧ (OverlappingPatterns.new g p orients).id_grid c
                Orientation.Original = some pr.2
            ∧ ∃ pat ∈ (OverlappingPatterns.new g p orients).pattern_table,
                pat.id = pr.2
                ∧ patternContent g ⟨p, p⟩ pat
                  = viewContent g ⟨p, p⟩ c Orientation.Original)
          (coordIter g.size) l)
    ∧ (Orientation.Original ∉ orients → coordIter g.size ≠ [] →
        (OverlappingPatterns.new g p orients).id_grid_original_orientation
          = none) := by
  have hinv := new_inv g p orients
  have hid : (OverlappingPatterns.new g p orients).id_grid
      = ((extractPairs g orients).foldl (extractStep g ⟨p, p⟩)
          ⟨[], 0, fun _ _ => none⟩).idGrid := rfl
  constructor
  · intro horig
    have hsome : ∀ c ∈ coordIter g.size,
        (((OverlappingPatterns.new g p orients).id_grid c
          Orientation.Original).map (fun i => (c, i))).isSome := by
      intro c hc
      have hpair : (Orientation.Original, c) ∈ extractPairs g orients := by
        unfold extractPairs
        rw [List.mem_flatMap]
        exact ⟨Orientation.Original, horig, List.mem_map.mpr ⟨c, hc, rfl⟩⟩
      have := extractLoop_idGrid_some g ⟨p, p⟩ (extractPairs g orients)
        ⟨[], 0, fun _ _ => none⟩ (Orientation.Original, c) hpair
      rw [hid]
      obtain ⟨i, hi⟩ := Option.isSome_iff_exists.mp this
      rw [hi]
      rfl
    obtain ⟨l, hl, hfa⟩ := optionTraverse_forall₂ _ (coordIter g.size) hsome
    refine ⟨l, hl, ?_⟩
    refine hfa.imp ?_
    intro c pr hpr
    obtain ⟨i, hi, hmap⟩ := Option.map_eq_some'.mp hpr
    obtain ⟨e, he, heid, hekey⟩ := hinv.idGrid_sound c Orientation.Original i hi
    refine ⟨by rw [← hmap], by rw [← hmap]; exact hi, e.2, ?_, ?_, ?_⟩
    · exact List.mem_map.mpr ⟨e, he, rfl⟩
    · rw [heid, ← hmap]
    · rw [(hinv.entries e he).1, hekey]
  · intro hno hne
    have huntouched : ∀ c, (OverlappingPatterns.new g p orients).id_grid c
        Orientation.Original = none := by
      intro c
      rw [hid]
      rw [extractLoop_idGrid_untouched g ⟨p, p⟩ (extractPairs g orients)
        ⟨[], 0, fun _ _ => none⟩ c Orientation.Original ?_]
      intro oc hoc hco
      have : oc.1 ∈ orients := by
        unfold extractPairs at hoc
        obtain ⟨o, ho, hco'⟩ := List.mem_flatMap.mp hoc
        obtain ⟨c', _, hc'⟩ := List.mem_map.mp hco'
        rw [← hc']
        exact ho
      rw [← hco.2] at this
      exact hno this
    cases hl : coordIter g.size with
    | nil => exact absurd hl hne
    | cons c rest =>
      unfold OverlappingPatterns.id_grid_original_orientation
      have : coordIter (OverlappingPatterns.new g p orients).grid.size
          = c :: rest := hl
      rw [this]
      refine optionTraverse_eq_none _ _ c (List.mem_cons_self _ _) ?_
      rw [huntouched c]
      rfl

theorem id_grid_original_orientation_spec_witness :
    Orientation.Original ∈ [Orientation.Original] ∧
    (∃ l, (OverlappingPatterns.new grid1 1
        [Orientation.Original]).id_grid_original_orientation = some l
      ∧ List.Forall₂ (fun c pr => pr.1 = c
          ∧ (OverlappingPatterns.new grid1 1
              [Orientation.Original]).id_grid c Orientation.Original
            = some pr.2
          ∧ ∃ pat ∈ (OverlappingPatterns.new grid1 1
                [Orientation.Original]).pattern_table,
              pat.id = pr.2
              ∧ patternContent grid1 ⟨1, 1⟩ pat
                = viewContent grid1 ⟨1, 1⟩ c Orientation.Original)
        (coordIter grid1.size) l) :=
  ⟨List.mem_singleton_self _,
    (id_grid_original_orientation_spec grid1 1 [Orientation.Original]).1
      (List.mem_singleton_self _)⟩

/-- Empty grid used by the C10 counterexample. -/
def emptyGrid : Grid Nat := ⟨⟨0, 0⟩, fun _ => 0⟩

/-- C10 counterexample: on an empty (0 x 0) grid whose extraction did not
request `Orientation::Original`, `id_grid_original_orientation` does not
panic — the per-cell closure never runs and the call returns an empty grid
normally — contradicting the claim that it panics whenever Original was
not among the requested orientations. -/
theorem id_grid_original_orientation_no_panic_on_empty :
    Orientation.Original ∉ [Orientation.Clockwise90] ∧
    (OverlappingPatterns.new emptyGrid 1
      [Orientation.Clockwise90]).id_grid_original_orientation = some [] :=
  ⟨by decide, rfl⟩

/-- C4 counterexample: a pattern size (2) larger than the 1 x 1 input grid
is not rejected — extraction runs to completion and produces a pattern
(wrap addressing makes the oversize view valid) — and an empty orientation
set is not rejected either — extraction completes with an empty table.
The source `OverlappingPatterns::new` returns `Self` with no error
channel, so no error can be surfaced. -/
theorem new_accepts_malformed_input :
    (OverlappingPatterns.new grid1 2 [Orientation.Original]).pattern_table
      = [⟨0, [⟨0, 0⟩], 1, Orientation.Original⟩]
    ∧ (OverlappingPatterns.new grid1 2 []).pattern_table = [] :=
  ⟨by decide, rfl⟩

/-- C4 (amended): `OverlappingPatterns::new` performs no input validation:
with an empty orientation set it completes normally, returning an empty
pattern table and an empty id grid for any grid and pattern size, and with
a pattern size larger than the input grid it completes normally as well,
extracting wrap-addressed patterns (concrete 1 x 1 grid with pattern size
2 shown); no input is rejected and no error is surfaced. -/
theorem new_no_validation (g : Grid Nat) (p : Nat) :
    (OverlappingPatterns.new g p ([] : List Orientation)).pattern_table = []
    ∧ (∀ c o, (OverlappingPatterns.new g p ([] : List Orientation)).id_grid c o
        = none)
    ∧ (OverlappingPatterns.new grid1 2 [Orientation.Original]).pattern_table.length
        = 1 :=
  ⟨rfl, fun _ _ => rfl, by decide⟩

/-- Embedding of `Pattern::tiled_grid_slice` (overlapping.rs lines 55-61):
the view of the owning grid anchored at the pattern's first occurrence
coordinate under its canonical orientation. -/
def OverlappingPatterns.patternSlice {T : Type} (op : OverlappingPatterns T)
    (p : Pattern) : TiledGridSlice T :=
  { size := op.pattern_size
    get := viewGet op.grid op.pattern_size p.coordD p.orientation }

/-- Embedding of `OverlappingPatterns::pattern_top_left_value`
(overlapping.rs lines 135-139): the sample at logical cell (0, 0) of the
pattern's canonical tiled slice.  The Rust `self.pattern(pattern_id)`
indexes the dense table at the id and panics out of range; `getD` with the
default pattern keeps the embedding total, and claim C9 shows fresh table
ids are always in range. -/
def OverlappingPatterns.pattern_top_left_value {T : Type}
    (op : OverlappingPatterns T) (i : PatternId) : T :=
  (op.patternSlice (op.pattern_table.getD i default)).get ⟨0, 0⟩

/-- Embedding of `OverlappingPatterns::compatible_patterns`
(overlapping.rs lines 153-171): the ids (table positions, as produced by
`PatternTable::enumerate`) of the patterns whose canonical slice passes
the pairwise compatibility test against `pat` in direction `d`. -/
def OverlappingPatterns.compatible_patterns {T : Type} [DecidableEq T]
    (op : OverlappingPatterns T) (pat : Pattern) (d : CardinalDirection) :
    List PatternId :=
  (op.pattern_table.enum.filter
    (fun e => are_patterns_compatible (op.patternSlice pat)
      (op.patternSlice e.2) d)).map (fun e => e.1)

/-- Embedding of `wfc::PatternDescription`: optional weight
(`Option<NonZeroU32>`, `none` standing for absent weight) and, per
cardinal direction, the allowed neighbour ids. -/
structure PatternDescription where
  weight : Option Nat
  allowed_neighbours : CardinalDirection → List PatternId

/-- Embedding of `OverlappingPatterns::pattern_descriptions`
(overlapping.rs lines 172-186): per pattern, weight
`NonZeroU32::new(count)` — `none` exactly when the count is zero — and
for each direction the materialized compatible-neighbour id list. -/
def OverlappingPatterns.pattern_descriptions {T : Type} [DecidableEq T]
    (op : OverlappingPatterns T) : List PatternDescription :=
  op.pattern_table.map (fun pat =>
    { weight := if pat.count = 0 then none else some pat.count
      allowed_neighbours := fun d => op.compatible_patterns pat d })

theorem mem_enum_filter_map {α : Type} (l : List α) (P : Nat × α → Bool)
    (i : Nat) :
    (i ∈ (l.enum.filter P).map (fun e => e.1)
      ↔ ∃ h : i < l.length, P (i, l.get ⟨i, h⟩) = true) := by
  rw [List.mem_map]
  constructor
  · rintro ⟨e, he, rfl⟩
    obtain ⟨hmem, hP⟩ := List.mem_filter.mp he
    rw [List.mem_enum_iff_get?] at hmem
    obtain ⟨h, hget⟩ := List.get?_eq_some.mp hmem
    exact ⟨h, by rwa [hget]⟩
  · rintro ⟨h, hP⟩
    refine ⟨(i, l.get ⟨i, h⟩), List.mem_filter.mpr ⟨?_, hP⟩, rfl⟩
    rw [List.mem_enum_iff_get?]
    exact List.get?_eq_get h

/-- C8: on a freshly extracted table, every pattern description carries
the observed occurrence count as a present weight (`some count`, never
`none`, and the count is positive), the descriptions are exactly the
per-pattern weight plus materialized per-direction neighbour lists, and an
id is in the allowed-neighbour list for a direction iff it indexes a table
pattern passing the pairwise compatibility test in that direction. -/
theorem pattern_descriptions_spec {T : Type} [DecidableEq T] (g : Grid T)
    (p : Nat) (orients : List Orientation) :
    ((OverlappingPatterns.new g p orients).pattern_descriptions
      = (OverlappingPatterns.new g p orients).pattern_table.map (fun pat =>
          { weight := some pat.count
            allowed_neighbours := fun d =>
              (OverlappingPatterns.new g p orients).compatible_patterns pat d }))
    ∧ (∀ pat ∈ (OverlappingPatterns.new g p orients).pattern_table,
        0 < pat.count)
    ∧ (∀ pat ∈ (OverlappingPatterns.new g p orients).pattern_table,
        ∀ (d : CardinalDirection) (i : PatternId),
        (i ∈ (OverlappingPatterns.new g p orients).compatible_patterns pat d
          ↔ ∃ h : i < (OverlappingPatterns.new g p orients).pattern_table.length,
              are_patterns_compatible
                ((OverlappingPatterns.new g p orients).patternSlice pat)
                ((OverlappingPatterns.new g p orients).patternSlice
                  ((OverlappingPatterns.new g p orients).pattern_table.get ⟨i, h⟩))
                d = true)) := by
  have hpos : ∀ pat ∈ (OverlappingPatterns.new g p orients).pattern_table,
      0 < pat.count := by
    intro pat hmem
    have hmem' : pat ∈ ((extractPairs g orients).foldl (extractStep g ⟨p, p⟩)
        ⟨[], 0, fun _ _ => none⟩).patternMap.map (fun e => e.2) := hmem
    obtain ⟨e, he, hpe⟩ := List.mem_map.mp hmem'
    have := ((new_inv g p orients).entries e he).2.2
    rw [← hpe]
    exact this
  refine ⟨?_, hpos, ?_⟩
  · unfold OverlappingPatterns.pattern_descriptions
    refine List.map_congr_left ?_
    intro pat hmem
    have hne : pat.count ≠ 0 := Nat.pos_iff_ne_zero.mp (hpos pat hmem)
    rw [if_neg hne]
  · intro pat _ d i
    exact mem_enum_filter_map (OverlappingPatterns.new g p orients).pattern_table
      (fun e => are_patterns_compatible
        ((OverlappingPatterns.new g p orients).patternSlice pat)
        ((OverlappingPatterns.new g p orients).patternSlice e.2) d) i

theorem pattern_descriptions_spec_witness :
    (⟨0, [⟨0, 0⟩], 1, Orientation.Original⟩ : Pattern)
        ∈ (OverlappingPatterns.new grid1 1 [Orientation.Original]).pattern_table
    ∧ 0 < (⟨0, [⟨0, 0⟩], 1, Orientation.Original⟩ : Pattern).count :=
  ⟨by decide,
    (pattern_descriptions_spec grid1 1 [Orientation.Original]).2.1
      ⟨0, [⟨0, 0⟩], 1, Orientation.Original⟩ (by decide)⟩

/-- Four-channel colour (`image::Rgba<u8>`).  Channels are `Nat`s; any
channel read from an image is in 0..=255. -/
structure Rgba where
  r : Nat
  g : Nat
  b : Nat
  a : Nat
deriving DecidableEq, Repr

/-- Embedding of `ImagePatterns` (wfc-image lib.rs lines 31-34). -/
structure ImagePatterns where
  overlapping_patterns : OverlappingPatterns Rgba
  empty_colour : Rgba

/-- Embedding of `ImagePatterns::new` (lib.rs lines 37-53): extract the
overlapping patterns from the pixel grid (the `image` crate decode step is
outside this core, so the input is the already-decoded pixel grid) and
set the fallback colour to the fully transparent zero sample
`Rgba([0, 0, 0, 0])`. -/
def ImagePatterns.new (image : Grid Rgba) (pattern_size : Nat)
    (orientations : List Orientation) : ImagePatterns :=
  { overlapping_patterns :=
      OverlappingPatterns.new image pattern_size orientations
    empty_colour := ⟨0, 0, 0, 0⟩ }

/-- Embedding of `ImagePatterns::set_empty_colour` (lib.rs lines 55-57). -/
def ImagePatterns.set_empty_colour (ip : ImagePatterns) (c : Rgba) :
    ImagePatterns :=
  { ip with empty_colour := c }

/-- Modelled from the spec (§3, §6): the external solver's per-cell result
as `image_from_wave` consumes it — per cell, `chosen_pattern_id()` either
returns a committed pattern id (`Ok`, here `some`) or fails (`Err`, here
`none`). -/
structure Wave where
  size : Size
  chosen : Coord → Option PatternId

/-- Embedding of `ImagePatterns::image_from_wave` (lib.rs lines 59-72):
an output grid of the wave's size; each cell with a committed pattern id
receives that pattern's top-left sample, every other cell receives the
fallback colour. -/
def ImagePatterns.image_from_wave (ip : ImagePatterns) (wave : Wave) :
    Grid Rgba :=
  { size := wave.size
    data := fun c =>
      match wave.chosen c with
      | some i => ip.overlapping_patterns.pattern_top_left_value i
      | none => ip.empty_colour }

/-- C7: `image_from_wave` produces an image of the wave's grid size in
which each cell with a committed pattern id is assigned that pattern's
top-left sample and each other cell the configurable fallback colour,
whose default under `ImagePatterns::new` is the fully transparent
`Rgba([0, 0, 0, 0])`. -/
theorem image_from_wave_spec :
    (∀ (ip : ImagePatterns) (wave : Wave),
      (ip.image_from_wave wave).size = wave.size)
    ∧ (∀ (ip : ImagePatterns) (wave : Wave) (c : Coord) (i : PatternId),
        wave.chosen c = some i →
        (ip.image_from_wave wave).data c
          = ip.overlapping_patterns.pattern_top_left_value i)
    ∧ (∀ (ip : ImagePatterns) (wave : Wave) (c : Coord),
        wave.chosen c = none →
        (ip.image_from_wave wave).data c = ip.empty_colour)
    ∧ (∀ (image : Grid Rgba) (p : Nat) (orients : List Orientation),
        (ImagePatterns.new image p orients).empty_colour = ⟨0, 0, 0, 0⟩) := by
  refine ⟨fun ip w => rfl, ?_, ?_, fun img p o => rfl⟩
  · intro ip w c i h
    show (match w.chosen c with
      | some i => ip.overlapping_patterns.pattern_top_left_value i
      | none => ip.empty_colour) = _
    rw [h]
  · intro ip w c h
    show (match w.chosen c with
      | some i => ip.overlapping_patterns.pattern_top_left_value i
      | none => ip.empty_colour) = _
    rw [h]

/-- Concrete 2 x 1 pixel grid with a (10,0,0,255) and a (30,0,0,255)
pixel, used by claims C3 and C7. -/
def gridRed : Grid Rgba :=
  ⟨⟨2, 1⟩, fun c => if c.x = 0 then ⟨10, 0, 0, 255⟩ else ⟨30, 0, 0, 255⟩⟩

/-- Image patterns of `gridRed` with pattern size 1, Original orientation
only: two patterns, ids 0 and 1, top-left values (10,0,0,255) and
(30,0,0,255). -/
def ipRed : ImagePatterns :=
  ImagePatterns.new gridRed 1 [Orientation.Original]

theorem image_from_wave_spec_witness :
    ((⟨⟨1, 1⟩, fun _ => some 0⟩ : Wave).chosen ⟨0, 0⟩ = some 0) ∧
    (ipRed.image_from_wave ⟨⟨1, 1⟩, fun _ => some 0⟩).data ⟨0, 0⟩
      = ipRed.overlapping_patterns.pattern_top_left_value 0 :=
  ⟨rfl, image_from_wave_spec.2.1 ipRed ⟨⟨1, 1⟩, fun _ => some 0⟩ ⟨0, 0⟩ 0 rfl⟩

/-- Modelled from the spec (§3, §4.5): the solver's enumerable per-cell
compatible-pattern-weight state
(`wfc::EnumerateCompatiblePatternWeights`). -/
inductive EnumerateCompatiblePatternWeights where
  | NoCompatiblePattern
  | SingleCompatiblePatternWithoutWeight (i : PatternId)
  | MultipleCompatiblePatternsWithoutWeights
  | CompatiblePatternsWithWeights (pats : List (PatternId × Nat))

/-- Modelled from the spec (§6): the external
`WaveCellRef::sum_compatible_pattern_weight` — the sum of the weights of
the cell's still-compatible patterns. -/
def sum_compatible_pattern_weight :
    EnumerateCompatiblePatternWeights → Nat
  | .CompatiblePatternsWithWeights pats => (pats.map (fun pw => pw.2)).sum
  | _ => 0

/-- Embedding of `ImagePatterns::weighted_average_colour` (lib.rs lines
74-110): fallback colour when no pattern or multiple unweighted patterns
are compatible, the pattern's top-left value for a single unweighted
pattern, and otherwise the per-channel truncating weighted average; the
final `as u8` casts are `% 256`. -/
def ImagePatterns.weighted_average_colour (ip : ImagePatterns)
    (cell : EnumerateCompatiblePatternWeights) : Rgba :=
  match cell with
  | .MultipleCompatiblePatternsWithoutWeights => ip.empty_colour
  | .NoCompatiblePattern => ip.empty_colour
  | .SingleCompatiblePatternWithoutWeight i =>
      ip.overlapping_patterns.pattern_top_left_value i
  | .CompatiblePatternsWithWeights pats =>
      let summed := (pats.map (fun pw =>
        let c := ip.overlapping_patterns.pattern_top_left_value pw.1
        (c.r * pw.2, c.g * pw.2, c.b * pw.2, c.a * pw.2))).foldl
        (fun acc x =>
          (acc.1 + x.1, acc.2.1 + x.2.1, acc.2.2.1 + x.2.2.1,
            acc.2.2.2 + x.2.2.2))
        (0, 0, 0, 0)
      let total := sum_compatible_pattern_weight
        (.CompatiblePatternsWithWeights pats)
      ⟨summed.1 / total % 256, summed.2.1 / total % 256,
        summed.2.2.1 / total % 256, summed.2.2.2 / total % 256⟩

theorem foldl_add4 (l : List (Nat × Nat × Nat × Nat)) (i1 i2 i3 i4 : Nat) :
    l.foldl (fun acc x =>
        (acc.1 + x.1, acc.2.1 + x.2.1, acc.2.2.1 + x.2.2.1,
          acc.2.2.2 + x.2.2.2)) (i1, i2, i3, i4)
      = (i1 + (l.map (fun x => x.1)).sum, i2 + (l.map (fun x => x.2.1)).sum,
          i3 + (l.map (fun x => x.2.2.1)).sum,
          i4 + (l.map (fun x => x.2.2.2)).sum) := by
  induction l generalizing i1 i2 i3 i4 with
  | nil => simp
  | cons x t ih =>
    rw [List.foldl_cons, ih]
    simp [Nat.add_assoc]

theorem div_total_mod256 {s w : Nat} (hw : 0 < w) (hs : s ≤ 255 * w) :
    s / w % 256 = s / w := by
  refine Nat.mod_eq_of_lt ?_
  rw [Nat.div_lt_iff_lt_mul hw]
  have h256 : 255 * w < 256 * w := by omega
  omega

/-- C3: `weighted_average_colour` handles exactly four cases — zero
compatible patterns and multiple unweighted compatible patterns yield the
fallback colour, a single unweighted compatible pattern yields that
pattern's top-left sample exactly, and multiple weighted compatible
patterns yield, independently per channel, the sum of channel times weight
divided (truncating) by the sum of weights — and in particular two
patterns with top-left colours (10,0,0,255) and (30,0,0,255), each with
weight 1, average to (20,0,0,255). -/
theorem weighted_average_colour_spec :
    (∀ ip : ImagePatterns,
      ip.weighted_average_colour .NoCompatiblePattern = ip.empty_colour)
    ∧ (∀ (ip : ImagePatterns) (i : PatternId),
      ip.weighted_average_colour (.SingleCompatiblePatternWithoutWeight i)
        = ip.overlapping_patterns.pattern_top_left_value i)
    ∧ (∀ ip : ImagePatterns,
      ip.weighted_average_colour .MultipleCompatiblePatternsWithoutWeights
        = ip.empty_colour)
    ∧ (∀ (ip : ImagePatterns) (pats : List (PatternId × Nat)),
      0 < (pats.map (fun pw => pw.2)).sum →
      (∀ pw ∈ pats,
        (ip.overlapping_patterns.pattern_top_left_value pw.1).r ≤ 255
        ∧ (ip.overlapping_patterns.pattern_top_left_value pw.1).g ≤ 255
        ∧ (ip.overlapping_patterns.pattern_top_left_value pw.1).b ≤ 255
        ∧ (ip.overlapping_patterns.pattern_top_left_value pw.1).a ≤ 255) →
      ip.weighted_average_colour (.CompatiblePatternsWithWeights pats)
        = ⟨(pats.map (fun pw =>
              (ip.overlapping_patterns.pattern_top_left_value pw.1).r * pw.2)).sum
            / (pats.map (fun pw => pw.2)).sum,
          (pats.map (fun pw =>
              (ip.overlapping_patterns.pattern_top_left_value pw.1).g * pw.2)).sum
            / (pats.map (fun pw => pw.2)).sum,
          (pats.map (fun pw =>
              (ip.overlapping_patterns.pattern_top_left_value pw.1).b * pw.2)).sum
            / (pats.map (fun pw => pw.2)).sum,
          (pats.map (fun pw =>
              (ip.overlapping_patterns.pattern_top_left_value pw.1).a * pw.2)).sum
            / (pats.map (fun pw => pw.2)).sum⟩)
    ∧ ipRed.weighted_average_colour
        (.CompatiblePatternsWithWeights [(0, 1), (1, 1)]) = ⟨20, 0, 0, 255⟩ := by
  refine ⟨fun ip => rfl, fun ip i => rfl, fun ip => rfl, ?_, by decide⟩
  intro ip pats htotal hbound
  have hchan : ∀ f : Rgba → Nat, (∀ pw ∈ pats,
      f (ip.overlapping_patterns.pattern_top_left_value pw.1) ≤ 255) →
      (pats.map (fun pw =>
        f (ip.overlapping_patterns.pattern_top_left_value pw.1) * pw.2)).sum
        / (pats.map (fun pw => pw.2)).sum % 256
      = (pats.map (fun pw =>
        f (ip.overlapping_patterns.pattern_top_left_value pw.1) * pw.2)).sum
        / (pats.map (fun pw => pw.2)).sum := by
    intro f hf
    refine div_total_mod256 htotal ?_
    have hle : (pats.map (fun pw =>
        f (ip.overlapping_patterns.pattern_top_left_value pw.1) * pw.2)).sum
        ≤ (pats.map (fun pw => 255 * pw.2)).sum := by
      refine List.sum_le_sum ?_
      intro pw hpw
      exact Nat.mul_le_mul_right pw.2 (hf pw hpw)
    have h255 : (pats.map (fun pw => (255 : Nat) * pw.2)).sum
        = 255 * (pats.map (fun pw => pw.2)).sum := by
      rw [← List.sum_map_mul_left]
    exact le_trans hle (le_of_eq h255)
  have hmain : ip.weighted_average_colour
      (.CompatiblePatternsWithWeights pats)
      = (⟨(pats.map (fun pw =>
            (ip.overlapping_patterns.pattern_top_left_value pw.1).r * pw.2)).sum
            / (pats.map (fun pw => pw.2)).sum % 256,
          (pats.map (fun pw =>
            (ip.overlapping_patterns.pattern_top_left_value pw.1).g * pw.2)).sum
            / (pats.map (fun pw => pw.2)).sum % 256,
          (pats.map (fun pw =>
            (ip.overlapping_patterns.pattern_top_left_value pw.1).b * pw.2)).sum
            / (pats.map (fun pw => pw.2)).sum % 256,
          (pats.map (fun pw =>
            (ip.overlapping_patterns.pattern_top_left_value pw.1).a * pw.2)).sum
            / (pats.map (fun pw => pw.2)).sum % 256⟩ : Rgba) := by
    simp only [ImagePatterns.weighted_average_colour,
      sum_compatible_pattern_weight]
    rw [foldl_add4]
    simp [List.map_map, Function.comp_def]
  rw [hmain]
  congr 1
  · exact hchan (fun c => c.r) (fun pw hpw => (hbound pw hpw).1)
  · exact hchan (fun c => c.g) (fun pw hpw => (hbound pw hpw).2.1)
  · exact hchan (fun c => c.b) (fun pw hpw => (hbound pw hpw).2.2.1)
  · exact hchan (fun c => c.a) (fun pw hpw => (hbound pw hpw).2.2.2)

theorem weighted_average_colour_spec_witness :
    0 < (([((0 : PatternId), (1 : Nat)), (1, 1)]).map (fun pw => pw.2)).sum
    ∧ ipRed.weighted_average_colour
        (.CompatiblePatternsWithWeights [(0, 1), (1, 1)])
      = ⟨(([((0 : PatternId), (1 : Nat)), (1, 1)]).map (fun pw =>
            (ipRed.overlapping_patterns.pattern_top_left_value pw.1).r * pw.2)).sum
          / (([((0 : PatternId), (1 : Nat)), (1, 1)]).map (fun pw => pw.2)).sum,
        (([((0 : PatternId), (1 : Nat)), (1, 1)]).map (fun pw =>
            (ipRed.overlapping_patterns.pattern_top_left_value pw.1).g * pw.2)).sum
          / (([((0 : PatternId), (1 : Nat)), (1, 1)]).map (fun pw => pw.2)).sum,
        (([((0 : PatternId), (1 : Nat)), (1, 1)]).map (fun pw =>
            (ipRed.overlapping_patterns.pattern_top_left_value pw.1).b * pw.2)).sum
          / (([((0 : PatternId), (1 : Nat)), (1, 1)]).map (fun pw => pw.2)).sum,
        (([((0 : PatternId), (1 : Nat)), (1, 1)]).map (fun pw =>
            (ipRed.overlapping_patterns.pattern_top_left_value pw.1).a * pw.2)).sum
          / (([((0 : PatternId), (1 : Nat)), (1, 1)]).map (fun pw => pw.2)).sum⟩ :=
  ⟨by decide, weighted_average_colour_spec.2.2.2.1 ipRed
    [(0, 1), (1, 1)] (by decide) (by decide)⟩

end Wfc
